import Mathlib

/- Verification development for the vcpkg static cmake interpreter
(`hermeto/core/package_managers/vcpkg/cmake_processor.py`).

Strings are modelled as `List Char`.  Python functions that can raise are
modelled as `Except`-valued functions; the exception kind is recorded.
The variable-substitution loop of `Value.reify` is modelled with explicit
fuel, since the Python loop is not obviously terminating. -/

namespace CmakeProc

/-- Strings of the interpreter, modelled as lists of characters. -/
abbrev Str := List Char

/-- Kinds of Python exceptions raised by the modelled code. -/
inductive PyErr
  | indexErr
  | valueErr
  | typeErr
  | attrErr
  deriving DecidableEq, Repr

/-- Pattern `pat` occurs at the head of `s` (used to model Python substring search). -/
def starts_with : Str → Str → Bool
  | [], _ => true
  | _ :: _, [] => false
  | p :: ps, c :: cs => p = c && starts_with ps cs

/-- Pattern `pat` occurs somewhere in `s`: models Python `pat in s`. -/
def occurs_in (pat : Str) : Str → Bool
  | [] => pat.isEmpty
  | c :: cs => starts_with pat (c :: cs) || occurs_in pat cs

/-- Replace the first occurrence of `pat` in `s` by `repl`, as literal
text.  `substitute_step` invokes this only on the inputs where
`re.sub(pat-regex, repl, s, count=1)` provably has exactly this
behaviour. -/
def replace_first (pat repl : Str) : Str → Str
  | [] => []
  | c :: cs =>
      if starts_with pat (c :: cs) then repl ++ (c :: cs).drop pat.length
      else c :: replace_first pat repl cs

/-- The two-character marker opener. -/
def dollarBrace : Str := ['$', '{']

/-- Model of `cbrackets_are_balanced_in` (cmake_processor.py lines 103-123):
the number of opening and closing curly brackets is equal. -/
def cbrackets_are_balanced_in (s : Str) : Bool :=
  s.count '{' = s.count '}'

/-- Scanner of `scbrackets_sequence_is_correct_in`.  At each position the
source tests `sym == "$" and pos+1<=len(strn) and strn[pos+1] == "{"`;
the bound `pos+1 <= len(strn)` also admits `pos+1 == len(strn)`, where
`strn[pos+1]` raises `IndexError` — modelled by `Except.error`.  The
decrement on `}` is gated on a positive balance, and a negative balance
returns `False` early (unreachable, kept for fidelity). -/
def scb_aux : Str → Int → Except PyErr Bool
  | [], bal => Except.ok (bal == 0)
  | c :: rest, bal =>
      if c = '$' then
        match rest with
        | [] => Except.error PyErr.indexErr
        | h :: _ =>
            let bal1 := if h = '{' then bal + 1 else bal
            if bal1 < 0 then Except.ok false else scb_aux rest bal1
      else
        let bal1 := if c = '}' ∧ bal > 0 then bal - 1 else bal
        if bal1 < 0 then Except.ok false else scb_aux rest bal1

/-- Model of `scbrackets_sequence_is_correct_in` (lines 126-162). -/
def scbrackets_sequence_is_correct_in (s : Str) : Except PyErr Bool :=
  scb_aux s 0

/-- Model of `contains_variables` (lines 164-176):
`"${" in strn and "}" in strn and scbrackets_sequence_is_correct_in(strn)`,
with Python short-circuit evaluation. -/
def contains_variables (s : Str) : Except PyErr Bool :=
  if occurs_in dollarBrace s then
    if s.contains '}' then scbrackets_sequence_is_correct_in s
    else Except.ok false
  else Except.ok false

/-- Scanner of `first_innermost_variable` (lines 76-100): a `${` clears the
accumulated name, a `}` returns it, anything else is accumulated; reaching
the end of the string raises `ValueError("Unbalanced string")`. -/
def fiv_aux : Str → Str → Except PyErr Str
  | [], _ => Except.error PyErr.valueErr
  | '$' :: '{' :: rest, _ => fiv_aux rest []
  | '}' :: _, out => Except.ok out
  | c :: rest, out => fiv_aux rest (out ++ [c])

/-- Model of `first_innermost_variable` (lines 76-100). -/
def first_innermost_variable (s : Str) : Except PyErr Str :=
  fiv_aux s []

/-- The variable environment (Python dict), modelled as an association list
with `dict.get` semantics. -/
abbrev Env := List (Str × Str)

/-- Model of `context.get(name, ReifyGuard)`: `none` plays `ReifyGuard`. -/
def env_get : Env → Str → Option Str
  | [], _ => none
  | (k, v) :: rest, n => if k = n then some v else env_get rest n

/-- Outcome of `Value.reify`. -/
inductive ReifyOut
  /-- A plain string was returned. -/
  | rstr (s : Str)
  /-- A wrapped `Value(contents=s)` was returned (could not fully reify). -/
  | rval (s : Str)
  /-- A Python exception was raised. -/
  | rerr (e : PyErr)
  /-- The modelling fuel ran out: the source loop has not finished yet. -/
  | nofuel
  /-- The substitution left the modelled subset of `re.sub`; the source
  behaviour from this point on is not determined by this model. -/
  | beyond
  deriving DecidableEq, Repr

/-- Characters with no metacharacter role in the host regex engine, so
that splicing them into a pattern matches them literally. -/
def regex_literal_char (c : Char) : Bool :=
  !(['.', '^', '$', '*', '+', '?', '(', ')', '[', ']', '\\', '|', '{', '}'].contains c)

/-- The literal marker text `${name}` whose escaped-brace regex the source
builds in `substitute` (line 184). -/
def marker_text (name : Str) : Str :=
  '$' :: '{' :: (name ++ ['}'])

/-- Outcome of one `substitute` call under a context hit. -/
inductive SubstOut
  /-- A replacement was performed; `re.sub` built a string distinct from
  its input object, so the caller's identity guard does not fire. -/
  | subst (res : Str)
  /-- No match: `re.sub` returns the input object itself and the caller's
  `to_reify is to_reify_old` guard fires. -/
  | nochange
  /-- Outside the modelled subset of `re.sub`. -/
  | beyond
  deriving DecidableEq, Repr

/-- Model of `substitute` (lines 181-184) under a context hit.  The
source splices the raw variable name into the regex `\$\{name\}` and
passes the environment value to `re.sub` as a replacement template.  The
model covers the subset where `re.sub(..., count=1)` is provably literal
first-occurrence replacement: the name consists of regex-literal
characters (so the pattern matches exactly the text `${name}`) and the
value contains no backslash (so the template inserts it verbatim).  A
name with a metacharacter or a value with a template escape (such as a
`\g<0>` group reference, which re-expands to the whole match) is outside
the subset, as is the corner where the value equals the whole string
being matched (there CPython's single-chunk join returns the replacement
object itself, and whether the caller's identity guard fires depends on
object history); these report `beyond` rather than being approximated. -/
def substitute_step (name v s : Str) : SubstOut :=
  if name.all regex_literal_char ∧ v.contains '\\' = false then
    if occurs_in (marker_text name) s then
      if s = marker_text name ∧ v = s then SubstOut.beyond
      else SubstOut.subst (replace_first (marker_text name) v s)
    else SubstOut.nochange
  else SubstOut.beyond

/-- The `while "${" in to_reify` loop of `Value.reify` (lines 205-212).
One iteration finds the innermost variable, looks it up (an absent name
gives `ReifyGuard`, under which `substitute` returns its input object
unchanged and the `to_reify is to_reify_old` guard fires, wrapping the
value) and otherwise substitutes via `substitute_step`: a performed
replacement continues the loop with the new string, no match wraps the
value, and an input outside the modelled `re.sub` subset stops with
`beyond`. -/
def reify_loop (env : Env) : Nat → Str → ReifyOut
  | fuel, s =>
    if occurs_in dollarBrace s then
      match fuel with
      | 0 => ReifyOut.nofuel
      | fuel + 1 =>
          match first_innermost_variable s with
          | Except.error e => ReifyOut.rerr e
          | Except.ok name =>
              match env_get env name with
              | none => ReifyOut.rval s
              | some v =>
                  match substitute_step name v s with
                  | SubstOut.subst s2 => reify_loop env fuel s2
                  | SubstOut.nochange => ReifyOut.rval s
                  | SubstOut.beyond => ReifyOut.beyond
    else ReifyOut.rstr s

/-- Model of `Value.reify` (lines 196-212).  `ctx = none` models calling
with `context=None`. -/
def value_reify (fuel : Nat) (contents : Str) (ctx : Option Env) : ReifyOut :=
  match ctx with
  | none =>
      match contains_variables contents with
      | Except.error e => ReifyOut.rerr e
      | Except.ok true => ReifyOut.rval contents
      | Except.ok false => ReifyOut.rstr contents
  | some env =>
      if occurs_in dollarBrace contents then reify_loop env fuel contents
      else ReifyOut.rstr contents

/-- The reify loop halts on the given inputs for some amount of fuel. -/
def reify_halts (contents : Str) (env : Env) : Prop :=
  ∃ n, value_reify n contents (some env) ≠ ReifyOut.nofuel

/-- The string has an occurrence of the marker opener with no closing
curly bracket anywhere after it. -/
def has_open_marker_no_close : Str → Bool
  | [] => false
  | c :: cs =>
      (c = '$' && starts_with ['{'] cs && !cs.contains '}') || has_open_marker_no_close cs

/- ## Dependency walker (find_deps, lines 58-73) -/

/-- Parsed `vcpkg.json` manifest: the declared direct dependency names and
the per-feature dependency names (`dependency_name` normalisation of
dict-shaped entries is already applied, as in lines 48-52). -/
structure Manifest where
  dependencies : List Str
  features : List (Str × List Str)
  deriving DecidableEq, Repr

/-- A ports tree: package name to manifest.  A missing port is modelled as
an empty manifest. -/
abbrev PortsTree := List (Str × Manifest)

/-- Look up a port manifest by name. -/
def lookup_manifest : PortsTree → Str → Manifest
  | [], _ => ⟨[], []⟩
  | (k, m) :: rest, n => if k = n then m else lookup_manifest rest n

/-- All per-feature dependency names of a manifest, in feature order
(lines 65-67 iterate `features` items and their dependency lists). -/
def features_deps (m : Manifest) : List Str :=
  m.features.foldr (fun p acc => p.2 ++ acc) []

/-- All names occurring in a ports tree: keys and mentioned dependency
names.  Used only as the termination measure universe. -/
def all_names (t : PortsTree) : List Str :=
  t.foldr (fun p acc => p.1 :: (p.2.dependencies ++ features_deps p.2 ++ acc)) []

/-- Model of `find_deps` (lines 58-73) on a worklist, with fuel.  A call on
`port :: ports` mirrors one Python invocation on `port` (filter the direct
and feature dependencies by the self guard and the `seen` set, add them to
`seen`, recurse into each in order threading `seen`) followed by the
remaining sibling invocations `ports`; the result list concatenates the
per-port `direct + feature + other` lists.  `none` models running out of
fuel (the source recursion carries no bound). -/
def find_deps_list (t : PortsTree) : Nat → List Str → List Str → Option (List Str × List Str)
  | _, [], seen => some ([], seen)
  | 0, _ :: _, _ => none
  | fuel + 1, port :: ports, seen =>
      let m := lookup_manifest t port
      let direct := m.dependencies.filter (fun dn => dn ≠ port ∧ dn ∉ seen)
      let featd := (features_deps m).filter (fun dn => dn ≠ port ∧ dn ∉ seen)
      let newdeps := direct ++ featd
      let seen1 := seen ++ newdeps
      match find_deps_list t fuel newdeps seen1 with
      | none => none
      | some (other, seen2) =>
          match find_deps_list t (fuel + 1) ports seen2 with
          | none => none
          | some (rest, seen3) => some ((newdeps ++ other) ++ rest, seen3)
termination_by fuel ports _ => (fuel, ports.length)

/-- Model of the root `find_deps(port_path)` call: fresh `seen`, and the
root result is turned into a set (`set(direct + feature + other)`),
modelled as the result list up to deduplication. -/
def find_deps_root (t : PortsTree) (fuel : Nat) (port : Str) : Option (List Str) :=
  (find_deps_list t fuel [port] []).map (fun r => r.1)

/- ## Fetch directives (do_special_magic implementations) -/

/-- Externally observable side effects of a `do_special_magic` call. -/
inductive Effect
  /-- `path.mkdir(parents=True, exist_ok=True)`. -/
  | mkdirp (path : Str)
  /-- `urlretrieve(url, filename)`: an actual network byte transfer. -/
  | retrieve (url : Str) (filename : Str)
  deriving DecidableEq, Repr

/-- A dataclass field after construction/reification: either a plain
Python `str`, or a still wrapped `Value(contents=s)`. -/
inductive FieldVal
  | fstr (s : Str)
  | fval (s : Str)
  deriving DecidableEq, Repr

/-- Model of the `Value.needs_reification` property (lines 214-216). -/
def value_needs_reification (s : Str) : Except PyErr Bool :=
  contains_variables s

/-- Replace every `/` by `_`: `str.replace("/", "_")`. -/
def slash_to_underscore (s : Str) : Str :=
  s.map (fun c => if c = '/' then '_' else c)

/-- Split a string on a separator character: `str.split(sep)`. -/
def split_on (sep : Char) (s : Str) : List Str :=
  (s.foldr
    (fun c acc =>
      match acc with
      | [] => [[c]]
      | cur :: done => if c = sep then [] :: (cur :: done) else (c :: cur) :: done)
    [[]])

/-- Join strings with a separator character: `sep.join(parts)`. -/
def join_with (sep : Char) : List Str → Str
  | [] => []
  | [p] => p
  | p :: ps => p ++ sep :: join_with sep ps

/-- The `VCPKG_FROM_GITHUB` required fields (lines 282-293); the optional
ones are never read by `do_special_magic` and are omitted. -/
structure GithubCmd where
  OUT_SOURCE_PATH : FieldVal
  REPO : FieldVal
  REF : FieldVal
  SHA512 : FieldVal
  deriving DecidableEq, Repr

/-- REF sanitisation of `VCPKG_FROM_GITHUB.do_special_magic` (lines
300-301): a REF containing `/` has every `/` replaced by `_`. -/
def github_sanitize_ref (ref : Str) : Str :=
  if ref.contains '/' then slash_to_underscore ref else ref

/-- URL construction of line 303. -/
def github_url (repo ref : Str) : Str :=
  ("https://github.com/".toList ++ repo) ++ ("/archive/".toList ++ ref) ++ ".tar.gz".toList

/-- Target file name of line 302: `path / ("-".join(REPO.split("/")) + "-" + REF + ".tar.gz")`. -/
def github_filename (path repo ref : Str) : Str :=
  path ++ '/' :: (join_with '-' (split_on '/' repo) ++ '-' :: ref ++ ".tar.gz".toList)

/-- Model of `VCPKG_FROM_GITHUB.do_special_magic` (lines 295-309): make the
directory, sanitise REF (`'/' in self.REF` raises `TypeError` on a still
wrapped `Value`), build the file name (`self.REPO.split` raises
`AttributeError` on a `Value`), build the URL; if `contains_variables`
holds of the URL raise `ValueError`, otherwise retrieve the URL. -/
def github_do_special_magic (path : Str) (c : GithubCmd) : List Effect × Except PyErr Bool :=
  let eff := [Effect.mkdirp path]
  match c.REF with
  | FieldVal.fval _ => (eff, Except.error PyErr.typeErr)
  | FieldVal.fstr ref0 =>
      let ref := github_sanitize_ref ref0
      match c.REPO with
      | FieldVal.fval _ => (eff, Except.error PyErr.attrErr)
      | FieldVal.fstr repo =>
          let url := github_url repo ref
          match contains_variables url with
          | Except.error e => (eff, Except.error e)
          | Except.ok true => (eff, Except.error PyErr.valueErr)
          | Except.ok false =>
              (eff ++ [Effect.retrieve url (github_filename path repo ref)], Except.ok true)

/-- The `VCPKG_FROM_GITLAB` required fields (lines 315-324). -/
structure GitlabCmd where
  OUT_SOURCE_PATH : FieldVal
  REPO : FieldVal
  REF : FieldVal
  SHA512 : FieldVal
  deriving DecidableEq, Repr

/-- Model of `VCPKG_FROM_GITLAB.do_special_magic` (lines 326-327): the body
is `return False` — no effect, no check, no error. -/
def gitlab_do_special_magic (_c : GitlabCmd) : List Effect × Except PyErr Bool :=
  ([], Except.ok false)

/-- The `VCPKG_FROM_BITBUCKET` fields (lines 333-339). -/
structure BitbucketCmd where
  OUT_SOURCE_PATH : FieldVal
  REPO : FieldVal
  REF : FieldVal
  SHA512 : FieldVal
  deriving DecidableEq, Repr

/-- Model of `VCPKG_FROM_BITBUCKET.do_special_magic` (lines 341-342):
`return False`. -/
def bitbucket_do_special_magic (_c : BitbucketCmd) : List Effect × Except PyErr Bool :=
  ([], Except.ok false)

/-- Model of the stub `VCPKG_GET_WINDOWS_SDK.do_special_magic`
(lines 364-365): `return False`. -/
def get_windows_sdk_do_special_magic : List Effect × Except PyErr Bool :=
  ([], Except.ok false)

/-- Model of the stub `IGNITION_MODULAR_LIBRARY.do_special_magic`
(lines 386-387): `return False`. -/
def ignition_modular_library_do_special_magic : List Effect × Except PyErr Bool :=
  ([], Except.ok false)

/-- Model of the stubs `QT_INSTALL_SUBMODULE.do_special_magic` and
`QT_SUBMODULE_INSTALLATION.do_special_magic` (lines 407-408, 428-429):
`return False`. -/
def qt_stub_do_special_magic : List Effect × Except PyErr Bool :=
  ([], Except.ok false)

/-- The `VCPKG_FROM_GIT` fields read by `do_special_magic` (lines 493-495). -/
structure GitCmd where
  OUT_SOURCE_PATH : FieldVal
  URL : FieldVal
  REF : FieldVal
  deriving DecidableEq, Repr

/-- Python `f-string` interpolation of a field: a plain string stays
itself, a dataclass `Value` renders as its repr. -/
def field_fstring : FieldVal → Str
  | FieldVal.fstr s => s
  | FieldVal.fval s =>
      "Value(contents=".toList ++ '\'' :: s ++ ['\'', ')']

/-- Model of `VCPKG_FROM_GIT.do_special_magic` (lines 502-523): make the
directory, build the `git fetch` command string (never executed here),
then check `contains_variables(self.URL)` — on a still wrapped `Value`
the `"${" in` test raises `TypeError`; a well-formed marker raises
`ValueError`; otherwise return `False`.  No retrieval is performed. -/
def git_do_special_magic (path : Str) (c : GitCmd) : List Effect × Except PyErr Bool :=
  let eff := [Effect.mkdirp path]
  let _to_run := "git fetch ".toList ++ field_fstring c.URL ++ ' ' :: field_fstring c.REF
      ++ " --depth 1".toList
  match c.URL with
  | FieldVal.fval _ => (eff, Except.error PyErr.typeErr)
  | FieldVal.fstr u =>
      match contains_variables u with
      | Except.error e => (eff, Except.error e)
      | Except.ok true => (eff, Except.error PyErr.valueErr)
      | Except.ok false => (eff, Except.ok false)

/-- The `VCPKG_FROM_SOURCEFORGE` fields (lines 529-538). -/
structure SourceforgeCmd where
  OUT_SOURCE_PATH : FieldVal
  REPO : FieldVal
  REF : Option FieldVal
  SHA512 : Option FieldVal
  FILENAME : Option FieldVal
  deriving DecidableEq, Repr

/-- Python `f-string` interpolation of an optional field (`None` renders
as the string `None`). -/
def opt_field_fstring : Option FieldVal → Str
  | none => "None".toList
  | some f => field_fstring f

/-- Model of `VCPKG_FROM_SOURCEFORGE.do_special_magic` (lines 540-568):
make the directory, split REPO on `/` (`"/" in self.REPO` raises
`TypeError` on a `Value`; a two-element unpack of three or more parts
raises `ValueError`), build the URL, and return `False`.  The URL is
computed and discarded; no retrieval is performed. -/
def sourceforge_do_special_magic (path : Str) (c : SourceforgeCmd) :
    List Effect × Except PyErr Bool :=
  let eff := [Effect.mkdirp path]
  let sf_url := "https://sourceforge.net/projects".toList
  match c.REPO with
  | FieldVal.fval _ => (eff, Except.error PyErr.typeErr)
  | FieldVal.fstr repo =>
      if repo.contains '/' then
        match split_on '/' repo with
        | [org, rn] =>
            let _url :=
              match c.REF with
              | some r =>
                  sf_url ++ '/' :: org ++ "/files/".toList ++ rn ++ '/' :: field_fstring r
                    ++ '/' :: opt_field_fstring c.FILENAME
              | none =>
                  if rn ≠ [] then
                    sf_url ++ '/' :: org ++ '/' :: rn ++ "/files/".toList
                      ++ opt_field_fstring c.FILENAME
                  else sf_url ++ '/' :: org ++ "/files/".toList ++ opt_field_fstring c.FILENAME
            (eff, Except.ok false)
        | _ => (eff, Except.error PyErr.valueErr)
      else
        let org := repo
        let rn : Str := []
        let _url :=
          match c.REF with
          | some r =>
              sf_url ++ '/' :: org ++ "/files/".toList ++ rn ++ '/' :: field_fstring r
                ++ '/' :: opt_field_fstring c.FILENAME
          | none => sf_url ++ '/' :: org ++ "/files/".toList ++ opt_field_fstring c.FILENAME
        (eff, Except.ok false)

/-- The `VCPKG_DOWNLOAD_DISTFILE` fields (lines 435-438). -/
structure DistfileCmd where
  URLS : List FieldVal
  FILENAME : FieldVal
  SHA512 : FieldVal
  deriving DecidableEq, Repr

/-- The per-URL reification check of lines 481-483: the first URL that is a
wrapped `Value` whose contents still need reification raises `ValueError`
(and `needs_reification` itself can raise `IndexError`). -/
def distfile_check_urls : List FieldVal → Except PyErr Unit
  | [] => Except.ok ()
  | FieldVal.fstr _ :: rest => distfile_check_urls rest
  | FieldVal.fval v :: rest =>
      match value_needs_reification v with
      | Except.error e => Except.error e
      | Except.ok true => Except.error PyErr.valueErr
      | Except.ok false => distfile_check_urls rest

/-- Model of `VCPKG_DOWNLOAD_DISTFILE.do_special_magic` (lines 477-485):
make the directory, sanitise FILENAME (`'/' in` raises `TypeError` on a
`Value`), check every URL, and return `False`.  No retrieval is
performed. -/
def distfile_do_special_magic (path : Str) (c : DistfileCmd) :
    List Effect × Except PyErr Bool :=
  let eff := [Effect.mkdirp path]
  match c.FILENAME with
  | FieldVal.fval _ => (eff, Except.error PyErr.typeErr)
  | FieldVal.fstr fn0 =>
      let _fn := if fn0.contains '/' then slash_to_underscore fn0 else fn0
      match distfile_check_urls c.URLS with
      | Except.error e => (eff, Except.error e)
      | Except.ok () => (eff, Except.ok false)

/- ## STRING command, REGEX MATCH branch (lines 717-727) -/

/-- Result of a successful `re.search`: the whole match and the capture
groups in order. -/
structure MatchData where
  whole : Str
  groups : List Str
  deriving DecidableEq, Repr

/-- Functional update of an environment, with Python dict assignment
semantics. -/
def env_set : Env → Str → Str → Env
  | [], k, v => [(k, v)]
  | (k0, v0) :: rest, k, v =>
      if k0 = k then (k, v) :: rest else (k0, v0) :: env_set rest k v

/-- Strip every backslash from the pattern: `self.What.replace("\\", "")`
(line 718). -/
def strip_backslashes (s : Str) : Str :=
  s.filter (fun c => c ≠ '\\')

/-- Decimal name `CMAKE_MATCH_i` of the synthetic group variable. -/
def cmake_match_name (i : Nat) : Str :=
  "CMAKE_MATCH_".toList ++ (Nat.repr i).toList

/-- Write the capture groups into the environment under
`CMAKE_MATCH_1, CMAKE_MATCH_2, ...` (lines 721-722). -/
def set_match_groups (env : Env) : Nat → List Str → Env
  | _, [] => env
  | i, g :: gs => set_match_groups (env_set env (cmake_match_name i) g) (i + 1) gs

/-- The fields of a `STRING` command relevant to the REGEX MATCH branch
(`InWhat` is assumed already reified to a plain string, as the source
comment at line 708 demands). -/
structure StringRegexMatchCmd where
  What : Str
  ToWhat : Str
  InWhat : Str
  deriving DecidableEq, Repr

/-- Model of the `REGEX MATCH` branch of `STRING.do_special_magic`
(lines 717-727), parameterised by the host regex search function
(`re.search`): the search is invoked on the backslash-stripped pattern;
on a match every group is written to `CMAKE_MATCH_i` and the output
variable receives the whole match; on no match a `ValueError` is
raised. -/
def string_regex_match_do_special_magic (search : Str → Str → Option MatchData)
    (c : StringRegexMatchCmd) (env : Env) : Except PyErr Env :=
  match search (strip_backslashes c.What) c.InWhat with
  | some m =>
      let env1 := set_match_groups env 1 m.groups
      Except.ok (env_set env1 c.ToWhat m.whole)
  | none => Except.error PyErr.valueErr

/-- A simple search oracle for demonstrations: the pattern matches iff it
occurs in the input as a literal substring, with no capture groups. -/
def substring_search (p s : Str) : Option MatchData :=
  if occurs_in p s then some ⟨p, []⟩ else none

/- ## Concrete instances used by the theorems -/

/-- GitHub directive with REPO `foo/bar` and REF `v1/2`, fully reified. -/
def github_foobar : GithubCmd :=
  ⟨FieldVal.fstr "src".toList, FieldVal.fstr "foo/bar".toList,
   FieldVal.fstr "v1/2".toList, FieldVal.fstr "0123".toList⟩

/-- GitHub directive whose REPO is the plain string with an unclosed
marker opener (reachable: `Value.reify()` without a context returns the
bare string, since `contains_variables` is false without a `}`). -/
def github_open_marker : GithubCmd :=
  ⟨FieldVal.fstr "src".toList, FieldVal.fstr ['$', '{', 'x'],
   FieldVal.fstr "v1".toList, FieldVal.fstr "0123".toList⟩

/-- GitHub directive whose REPO is a plain string holding a well-formed
unresolved marker. -/
def github_marker_repo : GithubCmd :=
  ⟨FieldVal.fstr "src".toList, FieldVal.fstr ['$', '{', 'x', '}'],
   FieldVal.fstr "v1".toList, FieldVal.fstr "0123".toList⟩

/-- GitLab directive one field of which is a still wrapped, unresolved
`Value`. -/
def gitlab_unreified : GitlabCmd :=
  ⟨FieldVal.fstr "src".toList, FieldVal.fval ['$', '{', 'X', '}'],
   FieldVal.fstr "v1".toList, FieldVal.fstr "0123".toList⟩

/-- The contents on which the reify loop runs forever under `cyclic_env`. -/
def cyclic_contents : Str := ['x', '$', '{', 'a', '}', 'c']

/-- An environment mapping `a` to a marker for `a` itself. -/
def cyclic_env : Env := [(['a'], ['$', '{', 'a', '}'])]

/-- The string of an opener, a closer, a stray closer and an unclosed
opener (the doctest example of `cbrackets_are_balanced_in`, line 114). -/
def stray_marker_string : Str := ['$', '{', '}', '}', '$', '{']

/-- A well-formed marker followed by a bare dollar as the final
character. -/
def trailing_dollar_string : Str := ['$', '{', 'a', '}', '$']

/-- Package names of the cyclic dependency scenario. -/
def port_P : Str := ['P']

/-- Package names of the cyclic dependency scenario. -/
def port_Q : Str := ['Q']

/-- The manifest tree of the scenario: `P` declares a direct dependency on
itself and a feature dependency on `Q`; `Q` declares a dependency on `P`. -/
def pq_tree : PortsTree :=
  [(port_P, ⟨[port_P], [(['f'], [port_Q])]⟩), (port_Q, ⟨[port_P], []⟩)]

/- ## Helper lemmas -/

/-- Names not yet seen, counted over the name universe of a tree: the
termination measure of the dependency walk. -/
def unseen_count (t : PortsTree) (seen : List Str) : Nat :=
  ((all_names t).filter (fun x => x ∉ seen)).length

theorem lookup_deps_sub (t : PortsTree) (port d : Str)
    (h : d ∈ (lookup_manifest t port).dependencies ++ features_deps (lookup_manifest t port)) :
    d ∈ all_names t := by
  induction t with
  | nil => simp [lookup_manifest, features_deps] at h
  | cons p rest ih =>
    rw [lookup_manifest] at h
    by_cases hk : p.1 = port
    · simp only [hk, if_pos rfl] at h
      simp [all_names, List.mem_append] at h ⊢
      tauto
    · simp only [if_neg hk] at h
      simp [all_names, List.mem_append]
      have := ih h
      simp [all_names, List.mem_append] at this
      tauto

theorem find_deps_list_seen_mono (t : PortsTree) :
    ∀ fuel ports seen res seen2,
      find_deps_list t fuel ports seen = some (res, seen2) → ∀ x, x ∈ seen → x ∈ seen2 := by
  intro fuel
  induction fuel with
  | zero =>
    intro ports seen res seen2 h
    cases ports with
    | nil =>
      rw [find_deps_list] at h
      injection h with h'; injection h' with h1 h2; subst h2; exact fun x hx => hx
    | cons p ps => rw [find_deps_list] at h; exact absurd h (by simp)
  | succ k ih =>
    intro ports
    induction ports with
    | nil =>
      intro seen res seen2 h
      rw [find_deps_list] at h
      injection h with h'; injection h' with h1 h2; subst h2; exact fun x hx => hx
    | cons port ports ihp =>
      intro seen res seen2 h
      simp only [find_deps_list] at h
      cases hchild : find_deps_list t k
          ((lookup_manifest t port).dependencies.filter (fun dn => dn ≠ port ∧ dn ∉ seen) ++
            (features_deps (lookup_manifest t port)).filter (fun dn => dn ≠ port ∧ dn ∉ seen))
          (seen ++ ((lookup_manifest t port).dependencies.filter (fun dn => dn ≠ port ∧ dn ∉ seen) ++
            (features_deps (lookup_manifest t port)).filter (fun dn => dn ≠ port ∧ dn ∉ seen))) with
      | none => rw [hchild] at h; exact absurd h (by simp)
      | some pr =>
        rw [hchild] at h
        obtain ⟨other, seenA⟩ := pr
        dsimp only at h
        cases hsib : find_deps_list t (k+1) ports seenA with
        | none => rw [hsib] at h; exact absurd h (by simp)
        | some pr2 =>
          rw [hsib] at h
          obtain ⟨rest, seenB⟩ := pr2
          dsimp only at h
          injection h with h'; injection h' with h1 h2; subst h2
          intro x hx
          have hA := ih _ _ _ _ hchild x (by simp [hx])
          exact ihp _ _ _ hsib x hA

theorem filter_length_le {α : Type} (l : List α) (p q : α → Bool)
    (himp : ∀ a, a ∈ l → q a = true → p a = true) :
    (l.filter q).length ≤ (l.filter p).length := by
  induction l with
  | nil => simp
  | cons c cs ih =>
    have ih' := ih (fun a ha => himp a (by simp [ha]))
    by_cases hq : q c = true
    · have hp := himp c (by simp) hq
      simp [List.filter, hq, hp]
      omega
    · simp only [List.filter, Bool.not_eq_true] at hq ⊢
      rw [hq]
      by_cases hp : p c = true
      · rw [hp]; simpa using Nat.le_succ_of_le ih'
      · simp only [Bool.not_eq_true] at hp; rw [hp]; exact ih'

theorem filter_length_lt {α : Type} (l : List α) (p q : α → Bool) (x : α)
    (himp : ∀ a, a ∈ l → q a = true → p a = true)
    (hx : x ∈ l) (hpx : p x = true) (hqx : q x = false) :
    (l.filter q).length < (l.filter p).length := by
  induction l with
  | nil => simp at hx
  | cons c cs ih =>
    have himp' : ∀ a, a ∈ cs → q a = true → p a = true := fun a ha => himp a (by simp [ha])
    rcases List.mem_cons.mp hx with rfl | hx'
    · have hqc : q x = false := hqx
      simp only [List.filter, hqc, hpx]
      have := filter_length_le cs p q himp'
      simp
      omega
    · by_cases hq : q c = true
      · have hp := himp c (by simp) hq
        simp only [List.filter, hq, hp]
        simpa using ih himp' hx'
      · simp only [Bool.not_eq_true] at hq
        rw [List.filter, hq]
        by_cases hp : p c = true
        · rw [List.filter, hp]
          have := ih himp' hx'
          simp
          omega
        · simp only [Bool.not_eq_true] at hp
          rw [List.filter, hp]
          exact ih himp' hx'

theorem unseen_count_le (t : PortsTree) (seen seen2 : List Str)
    (hsub : ∀ x, x ∈ seen → x ∈ seen2) :
    unseen_count t seen2 ≤ unseen_count t seen := by
  apply filter_length_le
  intro a _ ha
  simp only [decide_eq_true_eq] at ha ⊢
  intro hmem
  exact ha (hsub a hmem)

theorem unseen_count_lt (t : PortsTree) (seen newdeps : List Str) (x : Str)
    (hx : x ∈ newdeps) (hxall : x ∈ all_names t) (hxseen : x ∉ seen) :
    unseen_count t (seen ++ newdeps) < unseen_count t seen := by
  apply filter_length_lt (x := x)
  · intro a _ ha
    simp only [decide_eq_true_eq, List.mem_append] at ha ⊢
    intro hmem
    exact ha (Or.inl hmem)
  · exact hxall
  · simpa using hxseen
  · simp [hx]

theorem find_deps_adequate (t : PortsTree) :
    ∀ fuel, ∀ ports seen, unseen_count t seen < fuel →
      (find_deps_list t fuel ports seen).isSome := by
  intro fuel
  induction fuel with
  | zero => intro ports seen h; omega
  | succ k ih =>
    intro ports
    induction ports with
    | nil => intro seen _; rw [find_deps_list]; simp
    | cons port ports ihp =>
      intro seen hcount
      simp only [find_deps_list]
      set pred := fun dn => decide (dn ≠ port ∧ dn ∉ seen) with hpred
      set newdeps := (lookup_manifest t port).dependencies.filter pred ++
          (features_deps (lookup_manifest t port)).filter pred with hnew
      have hchild : (find_deps_list t k newdeps (seen ++ newdeps)).isSome := by
        cases hn : newdeps with
        | nil => rw [find_deps_list]; simp
        | cons d ds =>
          have hd : d ∈ newdeps := by rw [hn]; simp
          have hdall : d ∈ all_names t := by
            have : d ∈ (lookup_manifest t port).dependencies ++
                features_deps (lookup_manifest t port) := by
              rw [hnew] at hd
              rcases List.mem_append.mp hd with h1 | h1
              · exact List.mem_append.mpr (Or.inl (List.mem_of_mem_filter h1))
              · exact List.mem_append.mpr (Or.inr (List.mem_of_mem_filter h1))
            exact lookup_deps_sub t port d this
          have hdseen : d ∉ seen := by
            rw [hnew] at hd
            rcases List.mem_append.mp hd with h1 | h1 <;>
            · have := List.of_mem_filter h1
              simp only [hpred, decide_eq_true_eq] at this
              exact this.2
          have hlt := unseen_count_lt t seen newdeps d hd hdall hdseen
          rw [← hn]
          exact ih newdeps (seen ++ newdeps) (by omega)
      obtain ⟨⟨other, seenA⟩, hcA⟩ := Option.isSome_iff_exists.mp hchild
      rw [hcA]
      dsimp only
      have hmonoA : ∀ x, x ∈ seen ++ newdeps → x ∈ seenA :=
        find_deps_list_seen_mono t k newdeps (seen ++ newdeps) other seenA hcA
      have hseenA : ∀ x, x ∈ seen → x ∈ seenA := fun x hx => hmonoA x (by simp [hx])
      have hcountA : unseen_count t seenA ≤ unseen_count t seen :=
        unseen_count_le t seen seenA hseenA
      have hsib : (find_deps_list t (k+1) ports seenA).isSome := ihp seenA (by omega)
      obtain ⟨⟨rest, seenB⟩, hcB⟩ := Option.isSome_iff_exists.mp hsib
      rw [hcB]
      simp

theorem find_deps_terminates (t : PortsTree) (port : Str) :
    ∃ n, (find_deps_list t n [port] []).isSome :=
  ⟨unseen_count t [] + 1, find_deps_adequate t _ [port] [] (by omega)⟩

theorem scb_no_close : ∀ (s : Str) (bal : Int), 1 ≤ bal → s.contains '}' = false →
    scb_aux s bal ≠ Except.ok true := by
  intro s
  induction s with
  | nil =>
    intro bal hb _
    simp only [scb_aux, ne_eq, Except.ok.injEq]
    intro h
    rw [beq_iff_eq] at h
    omega
  | cons c cs ih =>
    intro bal hb hc
    have hcc : (c = '}') = False := by
      simp only [List.contains_cons, Bool.or_eq_false_iff] at hc
      simp only [eq_iff_iff, iff_false]
      intro h
      rw [h] at hc
      simp at hc
    have hcs : cs.contains '}' = false := by
      simp only [List.contains_cons, Bool.or_eq_false_iff] at hc
      exact hc.2
    rw [scb_aux.eq_def]
    dsimp only
    by_cases hd : c = '$'
    · rw [if_pos hd]
      cases cs with
      | nil => simp
      | cons h t =>
        dsimp only
        by_cases hbr : h = '{'
        · rw [if_pos hbr, if_neg (by omega)]
          exact ih (bal + 1) (by omega) hcs
        · rw [if_neg hbr, if_neg (by omega)]
          exact ih bal (by omega) hcs
    · rw [if_neg hd]
      have : (if c = '}' ∧ bal > 0 then bal - 1 else bal) = bal := by
        rw [if_neg]
        simp [hcc]
      rw [this, if_neg (by omega)]
      exact ih bal (by omega) hcs

theorem scb_open_marker : ∀ (s : Str) (bal : Int), 0 ≤ bal →
    has_open_marker_no_close s = true → scb_aux s bal ≠ Except.ok true := by
  intro s
  induction s with
  | nil => intro bal _ h; simp [has_open_marker_no_close] at h
  | cons c cs ih =>
    intro bal hb h
    simp only [has_open_marker_no_close, Bool.or_eq_true, Bool.and_eq_true,
      decide_eq_true_eq, Bool.not_eq_true'] at h
    rw [scb_aux.eq_def]
    dsimp only
    rcases h with ⟨⟨rfl, hsw⟩, hnc⟩ | h
    · rw [if_pos rfl]
      cases cs with
      | nil => simp
      | cons hh t =>
        dsimp only
        have hbr : hh = '{' := by
          simp only [starts_with, Bool.and_eq_true, decide_eq_true_eq] at hsw
          exact hsw.1.symm
        rw [if_pos hbr, if_neg (by omega)]
        exact scb_no_close (hh :: t) (bal + 1) (by omega) hnc
    · by_cases hd : c = '$'
      · rw [if_pos hd]
        cases cs with
        | nil => simp
        | cons hh t =>
          dsimp only
          by_cases hbr : hh = '{'
          · rw [if_pos hbr, if_neg (by omega)]
            exact ih (bal + 1) (by omega) h
          · rw [if_neg hbr, if_neg (by omega)]
            exact ih bal (by omega) h
      · rw [if_neg hd]
        by_cases hcb : c = '}' ∧ bal > 0
        · rw [if_pos hcb, if_neg (by omega)]
          exact ih (bal - 1) (by omega) h
        · rw [if_neg hcb, if_neg (by omega)]
          exact ih bal (by omega) h

theorem reify_cyclic_nofuel : ∀ n,
    value_reify n cyclic_contents (some cyclic_env) = ReifyOut.nofuel := by
  intro n
  induction n with
  | zero => rfl
  | succ k ih =>
    simp only [value_reify, cyclic_contents, cyclic_env] at ih ⊢
    simp +decide [occurs_in, starts_with, dollarBrace] at ih ⊢
    rw [reify_loop.eq_def]
    simp +decide [first_innermost_variable, fiv_aux, env_get, occurs_in, starts_with,
      dollarBrace, replace_first, substitute_step, marker_text, regex_literal_char]
    exact ih

/- ## Claim theorems -/

/-- C1 (counterexample): applying the GitHub fetch directive with fully
reified fields REPO `foo/bar` and REF `v1/2` does perform a network
retrieval: the effect trace of `do_special_magic` contains a `urlretrieve`
of the constructed URL, refuting that directive application never
transfers bytes. -/
theorem c1_no_network_counterexample :
    github_do_special_magic "/tmp/foo".toList github_foobar =
      ([Effect.mkdirp "/tmp/foo".toList,
        Effect.retrieve (github_url "foo/bar".toList "v1_2".toList)
          (github_filename "/tmp/foo".toList "foo/bar".toList "v1_2".toList)],
       Except.ok true) ∧
    Effect.retrieve (github_url "foo/bar".toList "v1_2".toList)
        (github_filename "/tmp/foo".toList "foo/bar".toList "v1_2".toList) ∈
      (github_do_special_magic "/tmp/foo".toList github_foobar).1 := by
  exact ⟨rfl, by decide⟩

/-- C1 (amended): every directive application other than the GitHub fetch
performs no network retrieval — the GitLab, Bitbucket and stub directives
produce no effect at all, and the git, SourceForge and distfile
directives only create the target directory; the GitHub directive emits a
retrieval only on its success path (fields reified, URL free of
well-formed markers). -/
theorem c1_no_network_amended :
    (∀ c : GitlabCmd, (gitlab_do_special_magic c).1 = []) ∧
    (∀ c : BitbucketCmd, (bitbucket_do_special_magic c).1 = []) ∧
    get_windows_sdk_do_special_magic.1 = [] ∧
    ignition_modular_library_do_special_magic.1 = [] ∧
    qt_stub_do_special_magic.1 = [] ∧
    (∀ (p : Str) (c : GitCmd), (git_do_special_magic p c).1 = [Effect.mkdirp p]) ∧
    (∀ (p : Str) (c : SourceforgeCmd),
      (sourceforge_do_special_magic p c).1 = [Effect.mkdirp p]) ∧
    (∀ (p : Str) (c : DistfileCmd),
      (distfile_do_special_magic p c).1 = [Effect.mkdirp p]) ∧
    (∀ (p : Str) (c : GithubCmd) (u f : Str),
      Effect.retrieve u f ∈ (github_do_special_magic p c).1 →
      (github_do_special_magic p c).2 = Except.ok true) := by
  refine ⟨fun c => rfl, fun c => rfl, rfl, rfl, rfl, ?_, ?_, ?_, ?_⟩
  · intro p c
    obtain ⟨o, url, ref⟩ := c
    cases url with
    | fval s => rfl
    | fstr u =>
      cases hcv : contains_variables u with
      | error e => simp [git_do_special_magic, hcv]
      | ok b => cases b <;> simp [git_do_special_magic, hcv]
  · intro p c
    obtain ⟨o, repo, ref, sha, fn⟩ := c
    cases repo with
    | fval s => rfl
    | fstr r =>
      simp only [sourceforge_do_special_magic]
      by_cases hsl : r.contains '/' = true
      · rw [if_pos hsl]
        cases hsp : split_on '/' r with
        | nil => rfl
        | cons a t =>
          cases t with
          | nil => rfl
          | cons b t2 =>
            cases t2 with
            | nil => rfl
            | cons cc t3 => rfl
      · rw [if_neg hsl]
  · intro p c
    obtain ⟨urls, fn, sha⟩ := c
    cases fn with
    | fval s => rfl
    | fstr f =>
      cases hch : distfile_check_urls urls with
      | error e => simp [distfile_do_special_magic, hch]
      | ok u => simp [distfile_do_special_magic, hch]
  · intro p c u f hmem
    obtain ⟨o, repo, ref, sha⟩ := c
    cases ref with
    | fval s => simp [github_do_special_magic] at hmem
    | fstr r =>
      cases repo with
      | fval s => simp [github_do_special_magic] at hmem
      | fstr rp =>
        cases hcv : contains_variables (github_url rp (github_sanitize_ref r)) with
        | error e => simp [github_do_special_magic, hcv] at hmem
        | ok b =>
          cases b
          · simp [github_do_special_magic, hcv]
          · simp [github_do_special_magic, hcv] at hmem

/-- C1 (witness for the amended theorem): the GitHub directive emits a
retrieval exactly in a run that reports success. -/
theorem c1_no_network_witness :
    (github_do_special_magic "/tmp/foo".toList github_foobar).2 = Except.ok true := by
  refine c1_no_network_amended.2.2.2.2.2.2.2.2 "/tmp/foo".toList github_foobar
    (github_url "foo/bar".toList "v1_2".toList)
    (github_filename "/tmp/foo".toList "foo/bar".toList "v1_2".toList) ?_
  decide

/-- C2 (counterexample): on the cyclic scenario — `P` declares a direct
dependency on itself and a feature dependency `Q`, and `Q` declares a
dependency on `P` — the walker returns `[Q, P]`, which contains the root
package's own name, not the claimed set containing only `Q`. -/
theorem c2_walker_counterexample :
    find_deps_root pq_tree 5 port_P = some [port_Q, port_P] ∧
    port_P ∈ (find_deps_root pq_tree 5 port_P).getD [] := by
  have h : find_deps_root pq_tree 5 port_P = some [port_Q, port_P] := by
    simp +decide [find_deps_root, find_deps_list, pq_tree, lookup_manifest, features_deps,
      port_P, port_Q]
  exact ⟨h, by rw [h]; decide⟩

/-- C2 (amended): the walker terminates on every manifest tree, cyclic
ones included (for every tree and root there is enough fuel for the
modelled recursion to complete), and on the `P`/`Q` scenario it returns
exactly the names `Q` and `P`: the self-dependency guard removes `P` only
when `P` itself is being expanded, so the root's own name re-enters the
result through the cycle via `Q`. -/
theorem c2_walker_amended :
    (∀ (t : PortsTree) (port : Str), ∃ n, (find_deps_list t n [port] []).isSome) ∧
    find_deps_root pq_tree 5 port_P = some [port_Q, port_P] := by
  constructor
  · exact find_deps_terminates
  · simp +decide [find_deps_root, find_deps_list, pq_tree, lookup_manifest, features_deps,
      port_P, port_Q]

/-- C3 (counterexample): the GitLab directive applied while its REPO field
is a still wrapped, unresolved `Value` (its contents need reification)
silently returns `False` instead of raising a fatal error. -/
theorem c3_unresolved_counterexample :
    value_needs_reification ['$', '{', 'X', '}'] = Except.ok true ∧
    gitlab_do_special_magic gitlab_unreified = ([], Except.ok false) :=
  ⟨rfl, rfl⟩

/-- C3 (amended): each directive checks only specific fields, and none
checks all of them, so an unresolved field is not always a fatal error.
The GitHub directive raises on a still wrapped REF (`TypeError`) or REPO
(`AttributeError`) and on a well-formed marker in the constructed URL,
but never reads SHA512; the git directive raises on a still wrapped or
marker-bearing URL; the distfile directive raises on a still wrapped
FILENAME (`TypeError`) and on an unresolved URLS entry (`ValueError`),
but never reads SHA512; the SourceForge directive raises a `TypeError`
on a still wrapped REPO, but its whole outcome depends only on the path
and REPO, so it proceeds silently with an unresolved REF, SHA512 or
FILENAME; the GitLab and Bitbucket directives never raise at all. -/
theorem c3_unresolved_amended :
    (∀ c : GitlabCmd, gitlab_do_special_magic c = ([], Except.ok false)) ∧
    (∀ c : BitbucketCmd, bitbucket_do_special_magic c = ([], Except.ok false)) ∧
    (∀ (p : Str) (c : GithubCmd) (s : Str), c.REF = FieldVal.fval s →
      (github_do_special_magic p c).2 = Except.error PyErr.typeErr) ∧
    (∀ (p : Str) (c : GithubCmd) (r s : Str), c.REF = FieldVal.fstr r →
      c.REPO = FieldVal.fval s →
      (github_do_special_magic p c).2 = Except.error PyErr.attrErr) ∧
    (∀ (p : Str) (c : GithubCmd) (s' : FieldVal),
      github_do_special_magic p c = github_do_special_magic p { c with SHA512 := s' }) ∧
    (∀ (p : Str) (c : GitCmd) (s : Str), c.URL = FieldVal.fval s →
      (git_do_special_magic p c).2 = Except.error PyErr.typeErr) ∧
    (∀ (p : Str) (c : GitCmd) (u : Str), c.URL = FieldVal.fstr u →
      contains_variables u = Except.ok true →
      (git_do_special_magic p c).2 = Except.error PyErr.valueErr) ∧
    (∀ (p : Str) (c : DistfileCmd) (s : Str), c.FILENAME = FieldVal.fval s →
      (distfile_do_special_magic p c).2 = Except.error PyErr.typeErr) ∧
    (∀ (p : Str) (c : DistfileCmd) (f v : Str), c.FILENAME = FieldVal.fstr f →
      c.URLS = [FieldVal.fval v] → value_needs_reification v = Except.ok true →
      (distfile_do_special_magic p c).2 = Except.error PyErr.valueErr) ∧
    (∀ (p : Str) (c : DistfileCmd) (s' : FieldVal),
      distfile_do_special_magic p c = distfile_do_special_magic p { c with SHA512 := s' }) ∧
    (∀ (p : Str) (c : SourceforgeCmd) (s : Str), c.REPO = FieldVal.fval s →
      (sourceforge_do_special_magic p c).2 = Except.error PyErr.typeErr) ∧
    (∀ (p : Str) (c : SourceforgeCmd) (ref' sha' fn' : Option FieldVal),
      sourceforge_do_special_magic p c =
        sourceforge_do_special_magic p { c with REF := ref', SHA512 := sha', FILENAME := fn' }) ∧
    (∀ (p : Str) (c : SourceforgeCmd) (r x : Str), c.REPO = FieldVal.fstr r →
      r.contains '/' = false → c.FILENAME = some (FieldVal.fval x) →
      (sourceforge_do_special_magic p c).2 = Except.ok false) := by
  refine ⟨fun c => rfl, fun c => rfl, ?_, ?_, ?_, ?_, ?_, ?_, ?_, ?_, ?_, ?_, ?_⟩
  · intro p c s h
    obtain ⟨o, repo, ref, sha⟩ := c
    cases h
    rfl
  · intro p c r s h1 h2
    obtain ⟨o, repo, ref, sha⟩ := c
    cases h1
    cases h2
    rfl
  · intro p c s'
    obtain ⟨o, repo, ref, sha⟩ := c
    rfl
  · intro p c s h
    obtain ⟨o, url, ref⟩ := c
    cases h
    rfl
  · intro p c u h1 h2
    obtain ⟨o, url, ref⟩ := c
    cases h1
    simp [git_do_special_magic, h2]
  · intro p c s h
    obtain ⟨urls, fn, sha⟩ := c
    cases h
    rfl
  · intro p c f v h1 h2 h3
    obtain ⟨urls, fn, sha⟩ := c
    cases h1
    cases h2
    simp [distfile_do_special_magic, distfile_check_urls, h3]
  · intro p c s'
    obtain ⟨urls, fn, sha⟩ := c
    rfl
  · intro p c s h
    obtain ⟨o, repo, ref, sha, fn⟩ := c
    cases h
    rfl
  · intro p c ref' sha' fn'
    obtain ⟨o, repo, ref, sha, fn⟩ := c
    cases repo with
    | fval s => rfl
    | fstr r => rfl
  · intro p c r x h1 h2 h3
    obtain ⟨o, repo, ref, sha, fn⟩ := c
    cases h1
    simp only [sourceforge_do_special_magic]
    rw [if_neg (by simpa using h2)]

/-- C3 (witness for the amended theorem): the GitHub directive with a
still wrapped REF raises. -/
theorem c3_unresolved_witness :
    (github_do_special_magic "/tmp/foo".toList
      ⟨FieldVal.fstr "src".toList, FieldVal.fstr "foo/bar".toList,
       FieldVal.fval ['$', '{', 'R', '}'], FieldVal.fstr "0123".toList⟩).2 =
      Except.error PyErr.typeErr :=
  c3_unresolved_amended.2.2.1 "/tmp/foo".toList _ ['$', '{', 'R', '}'] rfl

/-- C4 (counterexample): the reify loop does not terminate for every
input: on contents `x${a}c` under the environment mapping `a` to `${a}`,
every iteration substitutes the marker by an equal but fresh string, the
object-identity no-progress guard never fires, and the loop runs forever
(no amount of fuel completes it). -/
theorem c4_termination_counterexample : ¬ reify_halts cyclic_contents cyclic_env :=
  fun h => h.elim (fun n hn => hn (reify_cyclic_nofuel n))

/-- C4 (amended): the no-progress guard does return the original value
wrapped whenever an iteration makes no progress — either the innermost
variable is absent from the environment, or the constructed pattern does
not occur and `re.sub` hands back its input object — and the loop does
terminate on ordinary inputs (concretely, `${a}` under `a` bound to `X`
reifies to `X` in one substitution); but the guard does not ensure
termination for every input and environment: cyclic substitutions run
the loop forever. -/
theorem c4_termination_amended :
    (∀ (env : Env) (fuel : Nat) (s name : Str),
      occurs_in dollarBrace s = true →
      first_innermost_variable s = Except.ok name →
      env_get env name = none →
      reify_loop env (fuel + 1) s = ReifyOut.rval s) ∧
    (∀ (env : Env) (fuel : Nat) (s name v : Str),
      occurs_in dollarBrace s = true →
      first_innermost_variable s = Except.ok name →
      env_get env name = some v →
      substitute_step name v s = SubstOut.nochange →
      reify_loop env (fuel + 1) s = ReifyOut.rval s) ∧
    value_reify 2 ['$', '{', 'a', '}'] (some [(['a'], ['X'])]) = ReifyOut.rstr ['X'] := by
  refine ⟨?_, ?_, rfl⟩
  · intro env fuel s name ho hf hg
    rw [reify_loop.eq_def]
    dsimp only
    rw [if_pos ho, hf]
    dsimp only
    rw [hg]
  · intro env fuel s name v ho hf hg hsub
    rw [reify_loop.eq_def]
    dsimp only
    rw [if_pos ho, hf]
    dsimp only
    rw [hg]
    dsimp only
    rw [hsub]

/-- C4 (witness for the amended theorem): both no-progress paths wrap at
concrete inputs — an absent variable, and a present variable whose
marker pattern does not occur (the first closing bracket precedes the
opener). -/
theorem c4_termination_witness :
    reify_loop [] 1 ['$', '{', 'a', '}'] = ReifyOut.rval ['$', '{', 'a', '}'] ∧
    reify_loop [(['a'], ['X'])] 1 ['a', '}', 'b', '$', '{', 'c', '}'] =
      ReifyOut.rval ['a', '}', 'b', '$', '{', 'c', '}'] :=
  ⟨c4_termination_amended.1 [] 0 ['$', '{', 'a', '}'] ['a'] rfl rfl rfl,
   c4_termination_amended.2.1 [(['a'], ['X'])] 0 ['a', '}', 'b', '$', '{', 'c', '}']
     ['a'] ['X'] rfl rfl rfl rfl⟩

/-- C5 (counterexample): no single checker satisfies all four clauses.
The bracket-counting checker is the one classifying `${}}` as not
balanced, yet it reports well-formed the doctest string `${}}${`, which
contains a marker opener with no closing bracket after it; conversely,
the scanning checker classifies `${}}` as correct. -/
theorem c5_balance_counterexample :
    (cbrackets_are_balanced_in ['$', '{', '}', '}'] = false ∧
     cbrackets_are_balanced_in stray_marker_string = true ∧
     has_open_marker_no_close stray_marker_string = true) ∧
    scbrackets_sequence_is_correct_in ['$', '{', '}', '}'] = Except.ok true :=
  ⟨⟨by decide, by decide, by decide⟩, rfl⟩

/-- C5 (amended): the counting checker `cbrackets_are_balanced_in`
classifies `${}` as balanced, `${}}` as not and `${}${}` as balanced, but
it can report well-formed a string with an unclosed marker; it is the
scanning checker `scbrackets_sequence_is_correct_in` that never reports
correct a string containing a marker opener with no closing bracket
after it. -/
theorem c5_balance_amended :
    cbrackets_are_balanced_in ['$', '{', '}'] = true ∧
    cbrackets_are_balanced_in ['$', '{', '}', '}'] = false ∧
    cbrackets_are_balanced_in ['$', '{', '}', '$', '{', '}'] = true ∧
    (∀ s : Str, has_open_marker_no_close s = true →
      scbrackets_sequence_is_correct_in s ≠ Except.ok true) := by
  refine ⟨by decide, by decide, by decide, ?_⟩
  intro s hs
  exact scb_open_marker s 0 (by omega) hs

/-- C5 (witness for the amended theorem): `${a` is never reported
correct by the scanning checker. -/
theorem c5_balance_witness :
    scbrackets_sequence_is_correct_in ['$', '{', 'a'] ≠ Except.ok true :=
  c5_balance_amended.2.2.2 ['$', '{', 'a'] (by decide)

/-- C6: for every string with no interpolation marker opener, reification
is the identity — `Value.reify` returns the plain string unchanged both
without a context and under any environment. -/
theorem c6_reify_identity :
    ∀ (s : Str) (env : Env) (fuel : Nat), occurs_in dollarBrace s = false →
      value_reify fuel s none = ReifyOut.rstr s ∧
      value_reify fuel s (some env) = ReifyOut.rstr s := by
  intro s env fuel h
  constructor
  · simp [value_reify, contains_variables, h]
  · simp [value_reify, h]

/-- C6 (witness). -/
theorem c6_reify_identity_witness :
    value_reify 0 "hello".toList none = ReifyOut.rstr "hello".toList ∧
    value_reify 0 "hello".toList (some [(['a'], ['b'])]) = ReifyOut.rstr "hello".toList :=
  c6_reify_identity "hello".toList [(['a'], ['b'])] 0 (by decide)

/-- C7: reification resolves nested markers innermost first — for
`${a${b}c}` under the environment mapping `b` to `X` and `aXc` to `Y`,
`Value.reify` yields `Y` (for any sufficient fuel): `b` is resolved
before the enclosing variable is looked up. -/
theorem c7_innermost_first : ∀ n : Nat,
    value_reify (n + 2) ['$', '{', 'a', '$', '{', 'b', '}', 'c', '}']
      (some [(['b'], ['X']), (['a', 'X', 'c'], ['Y'])]) = ReifyOut.rstr ['Y'] := by
  intro n
  simp only [value_reify]
  simp +decide [occurs_in, starts_with, dollarBrace]
  rw [reify_loop.eq_def]
  simp +decide [first_innermost_variable, fiv_aux, env_get, occurs_in, starts_with,
    dollarBrace, replace_first, substitute_step, marker_text, regex_literal_char]
  rw [reify_loop.eq_def]
  simp +decide [first_innermost_variable, fiv_aux, env_get, occurs_in, starts_with,
    dollarBrace, replace_first, substitute_step, marker_text, regex_literal_char]
  rw [reify_loop.eq_def]
  simp +decide [occurs_in, starts_with, dollarBrace]

/-- C8 (counterexample): the failure test of the GitHub directive is
`contains_variables`, not a plain marker-opener search — with REPO the
plain string holding an unclosed `${x`, the constructed URL does contain
the marker opener, yet the directive does not fail: it proceeds to
retrieve the URL and reports success. -/
theorem c8_github_url_counterexample :
    occurs_in dollarBrace (github_url ['$', '{', 'x'] "v1".toList) = true ∧
    github_do_special_magic "/tmp/foo".toList github_open_marker =
      ([Effect.mkdirp "/tmp/foo".toList,
        Effect.retrieve (github_url ['$', '{', 'x'] "v1".toList)
          (github_filename "/tmp/foo".toList ['$', '{', 'x'] "v1".toList)],
       Except.ok true) :=
  ⟨by decide, rfl⟩

/-- C8 (amended): with REPO `foo/bar` and REF `v1/2` the ref is sanitised
to `v1_2` and the URL is `https://github.com/foo/bar/archive/v1_2.tar.gz`
(the retrieval of which is attempted); the directive fails with an error
when the constructed URL contains a well-formed marker (both `${` and `}`
present and correctly sequenced, the `contains_variables` test), though a
bare `${` without a closing bracket slips through. -/
theorem c8_github_url_amended :
    github_sanitize_ref "v1/2".toList = "v1_2".toList ∧
    github_url "foo/bar".toList "v1_2".toList =
      "https://github.com/foo/bar/archive/v1_2.tar.gz".toList ∧
    github_do_special_magic "/tmp/foo".toList github_foobar =
      ([Effect.mkdirp "/tmp/foo".toList,
        Effect.retrieve "https://github.com/foo/bar/archive/v1_2.tar.gz".toList
          "/tmp/foo/foo-bar-v1_2.tar.gz".toList],
       Except.ok true) ∧
    (∀ (p : Str) (c : GithubCmd) (repo ref : Str),
      c.REPO = FieldVal.fstr repo → c.REF = FieldVal.fstr ref →
      contains_variables (github_url repo (github_sanitize_ref ref)) = Except.ok true →
      (github_do_special_magic p c).2 = Except.error PyErr.valueErr) := by
  refine ⟨by decide, by decide, rfl, ?_⟩
  intro p c repo ref h1 h2 hcv
  obtain ⟨o, rp, rf, sha⟩ := c
  cases h1
  cases h2
  simp [github_do_special_magic, hcv]

/-- C8 (witness for the amended theorem): a well-formed marker in REPO
makes the directive fail. -/
theorem c8_github_url_witness :
    (github_do_special_magic "/tmp/foo".toList github_marker_repo).2 =
      Except.error PyErr.valueErr :=
  c8_github_url_amended.2.2.2 "/tmp/foo".toList github_marker_repo
    ['$', '{', 'x', '}'] "v1".toList rfl rfl rfl

/-- C9: on the string `${a}$` — whose final character is a dollar and
which contains both the marker opener and a closing bracket — the
well-formedness scan reads one position past the end of the string and
raises `IndexError`, so `contains_variables` is not total. -/
theorem c9_index_error :
    scbrackets_sequence_is_correct_in trailing_dollar_string =
      Except.error PyErr.indexErr ∧
    contains_variables trailing_dollar_string = Except.error PyErr.indexErr ∧
    occurs_in dollarBrace trailing_dollar_string = true ∧
    trailing_dollar_string.contains '}' = true :=
  ⟨rfl, rfl, by decide, by decide⟩

/-- C10: in the `REGEX MATCH` branch of the STRING command, every
backslash is stripped from the pattern before the search is performed:
the stripped pattern contains no backslash, the escaped dot `\.` becomes
the bare metacharacter `.` (under a literal-substring oracle it then
matches a literal dot), and the outcome depends on the search function
only through its value at the stripped pattern. -/
theorem c10_regex_backslash :
    (∀ w : Str, '\\' ∉ strip_backslashes w) ∧
    strip_backslashes ['\\', '.'] = ['.'] ∧
    string_regex_match_do_special_magic substring_search
        ⟨['\\', '.'], ['V'], ['a', '.', 'b']⟩ [] =
      Except.ok [(['V'], ['.'])] ∧
    (∀ (s1 s2 : Str → Str → Option MatchData) (c : StringRegexMatchCmd) (env : Env),
      s1 (strip_backslashes c.What) c.InWhat = s2 (strip_backslashes c.What) c.InWhat →
      string_regex_match_do_special_magic s1 c env =
        string_regex_match_do_special_magic s2 c env) := by
  refine ⟨?_, by decide, rfl, ?_⟩
  · intro w
    simp [strip_backslashes, List.mem_filter]
  · intro s1 s2 c env h
    simp only [string_regex_match_do_special_magic, h]

/-- C10 (witness for the last clause): two different search oracles that
agree on the stripped pattern produce the same outcome. -/
theorem c10_regex_backslash_witness :
    string_regex_match_do_special_magic substring_search
        ⟨['\\', '.'], ['V'], ['a', '.', 'b']⟩ [] =
      string_regex_match_do_special_magic
        (fun p s => if p = ['.'] then substring_search p s else none)
        ⟨['\\', '.'], ['V'], ['a', '.', 'b']⟩ [] :=
  c10_regex_backslash.2.2.2 substring_search
    (fun p s => if p = ['.'] then substring_search p s else none)
    ⟨['\\', '.'], ['V'], ['a', '.', 'b']⟩ [] (by decide)

end CmakeProc
